import Mathlib

/-!
Verification of the MMAPPHUB app-launcher core: the entry data model, the
local storage service, the cloud sync service and the mutation handlers, as
implemented in src/unnamed/part_000 (sync variant), src/App.tsx (local
variant) and src/unnamed/part_001 (effect-saving local variant).
-/

namespace AppHub

/-- An entry of the collection: the AppLink record (src types module; fields
as constructed by handleSaveApp in src/unnamed/part_000 line 343 and
src/App.tsx line 248).  createdAt holds the Date.now() millisecond count,
a nonnegative integer. -/
structure AppLink where
  id : String
  name : String
  url : String
  icon : String
  category : String
  createdAt : Nat
deriving Repr, DecidableEq

/-- Modelled from the spec: INITIAL_APPS, the fixed default seed collection,
lives in the constants module which is not among the source files.  The spec
fixes no contents (its scenario in section 8 runs with a seed of 0 entries),
so the seed is the empty collection; no claim depends on its value, only on
it being a fixed constant. -/
def INITIAL_APPS : List AppLink := []

/-- A JSON value, as produced by the host JSON.parse: the payload type of
both the persisted record and the remote key-value store.  Numbers are
modelled as integers (the only number the code ever stores is the
Date.now() timestamp). -/
inductive Json where
  | null
  | bool (b : Bool)
  | num (n : Int)
  | str (s : String)
  | arr (elems : List Json)
  | obj (fields : List (String × Json))

/-- The JSON encoding of one AppLink, field for field: what JSON.stringify
produces for the object literals built in handleSaveApp. -/
def encodeApp (a : AppLink) : Json :=
  .obj [("id", .str a.id), ("name", .str a.name), ("url", .str a.url),
        ("icon", .str a.icon), ("category", .str a.category),
        ("createdAt", .num a.createdAt)]

/-- The JSON encoding of a collection: JSON.stringify of an AppLink array. -/
def encodeApps (apps : List AppLink) : Json :=
  .arr (apps.map encodeApp)

/-- Field lookup in a JSON object. -/
def jGet : List (String × Json) → String → Option Json
  | [], _ => none
  | (k, v) :: rest, key => if k = key then some v else jGet rest key

/-- Read a JSON value as a string. -/
def asStr : Json → Option String
  | .str s => some s
  | _ => none

/-- Read a JSON value as a nonnegative integer. -/
def asNat : Json → Option Nat
  | .num (Int.ofNat n) => some n
  | _ => none

/-- Spec-side interpretation of one JSON value as an Entry: the code never
validates shapes, so this decoder exists only to state what the spec calls
a valid Entry (all six fields present with their types). -/
def decodeApp : Json → Option AppLink
  | .obj fields => do
      let id ← jGet fields "id" >>= asStr
      let name ← jGet fields "name" >>= asStr
      let url ← jGet fields "url" >>= asStr
      let icon ← jGet fields "icon" >>= asStr
      let category ← jGet fields "category" >>= asStr
      let createdAt ← jGet fields "createdAt" >>= asNat
      pure { id := id, name := name, url := url, icon := icon,
             category := category, createdAt := createdAt }
  | _ => none

/-- Spec-side interpretation of a JSON list as a Collection. -/
def decodeList : List Json → Option (List AppLink)
  | [] => some []
  | j :: rest => do
      let a ← decodeApp j
      let as ← decodeList rest
      pure (a :: as)

/-- Spec-side interpretation of a JSON value as a Collection: a JSON array
whose every element is a valid Entry. -/
def decodeApps : Json → Option (List AppLink)
  | .arr elems => decodeList elems
  | _ => none

/-- The persisted local record, seen at the level of its JSON.parse outcome
(JSON.parse being a host primitive is not re-implemented): the record is
absent (localStorage.getItem returned null or the empty string, both falsy),
or holds text on which JSON.parse throws, or holds text that JSON.parse
reads as the value j. -/
inductive StoredData where
  | absent
  | malformed
  | json (j : Json)

namespace storageService

/-- storageService.getApps (src/unnamed/part_000 lines 41-49 and src/App.tsx
lines 8-16): absent record or a parse failure falls back to INITIAL_APPS;
otherwise whatever JSON.parse produced is returned with no shape check.
The fallback branches return the typed seed, i.e. its JSON image here. -/
def getApps : StoredData → Json
  | .absent => encodeApps INITIAL_APPS
  | .malformed => encodeApps INITIAL_APPS
  | .json j => j

/-- storageService.saveApps (src/unnamed/part_000 lines 50-52 and
src/App.tsx lines 17-19): the record becomes JSON.stringify(apps), whose
JSON.parse outcome is exactly the encoding of apps (stringify and parse are
mutually inverse on these values). -/
def saveApps (apps : List AppLink) : StoredData :=
  .json (encodeApps apps)

end storageService

theorem decodeApp_encodeApp (a : AppLink) : decodeApp (encodeApp a) = some a := rfl

theorem decodeList_encode (C : List AppLink) :
    decodeList (C.map encodeApp) = some C := by
  induction C with
  | nil => rfl
  | cons a rest ih => simp [decodeList, decodeApp_encodeApp, ih]

theorem decodeApps_encodeApps (C : List AppLink) :
    decodeApps (encodeApps C) = some C := by
  simp [decodeApps, encodeApps, decodeList_encode]

/-- What the remote store answers to the fetch in fetchCloudApps: the fetch
promise rejects (network error, or a 2xx body that is not JSON so that
response.json() throws, both landing in the same catch), or an HTTP response
arrives with success flag response.ok and a JSON body. -/
inductive RemoteResponse where
  | netError
  | resp (ok : Bool) (body : Json)

namespace syncService

/-- syncService.fetchCloudApps (src/unnamed/part_000 lines 11-23): on a
response with ok status whose body is a JSON array, that array (its elements
unvalidated); on a non-ok status, a non-array body or a rejected fetch,
null.  The result collection is the raw JSON elements, as in the code, which
casts them to AppLink[] without checking. -/
def fetchCloudApps : RemoteResponse → Option (List Json)
  | .netError => none
  | .resp ok body =>
      if ok then
        match body with
        | .arr elems => some elems
        | _ => none
      else none

end syncService

/-- One observable action of the main component on its surroundings, with
the collection element type left generic exactly as the code is untyped at
runtime: setApps updates the in-memory React state, saveLocal is
storageService.saveApps, pushRemote is syncService.pushCloudApps at a key,
fetchRemote is syncService.fetchCloudApps at a key. -/
inductive Event (α : Type) where
  | setApps (c : List α)
  | saveLocal (c : List α)
  | pushRemote (key : String) (c : List α)
  | fetchRemote (key : String)

/-- The local device state the claims observe: the in-memory collection and
the persisted record (none when nothing was ever saved), at collection
granularity. -/
structure LocalState (α : Type) where
  apps : List α
  stored : Option (List α)
deriving Repr, DecidableEq

/-- Effect of one event on the local device state.  setApps replaces the
in-memory collection, saveLocal overwrites the persisted record; pushRemote
and fetchRemote are network writes and reads that touch no local state
regardless of their outcome (pushCloudApps returns a boolean that updateApps
discards, src/unnamed/part_000 lines 25-37 and 321). -/
def applyEvent : LocalState α → Event α → LocalState α
  | s, .setApps c => { s with apps := c }
  | s, .saveLocal c => { s with stored := some c }
  | s, .pushRemote _ _ => s
  | s, .fetchRemote _ => s

/-- Run a sequence of events from a local state. -/
def runEvents (s : LocalState α) (es : List (Event α)) : LocalState α :=
  es.foldl applyEvent s

/-- updateApps (src/unnamed/part_000 lines 315-324), as the sequence of
actions its body performs in order: setApps(newApps), then
storageService.saveApps(newApps), then - only when a sync key is
configured - pushCloudApps(syncKey, newApps). -/
def updateAppsTrace (syncKey : Option String) (newApps : List α) : List (Event α) :=
  [.setApps newApps, .saveLocal newApps] ++
    (match syncKey with
     | some k => [.pushRemote k newApps]
     | none => [])

/-- The auto-pull effect (src/unnamed/part_000 lines 299-312), given the
already-computed fetchCloudApps result: nothing without a sync key;
otherwise a fetch, and when it produced a collection, setApps then
storageService.saveApps of that collection; when it produced null, nothing
further. -/
def autoPullTrace (syncKey : Option String) (result : Option (List α)) : List (Event α) :=
  match syncKey with
  | none => []
  | some k =>
      .fetchRemote k ::
        (match result with
         | some cloudData => [.setApps cloudData, .saveLocal cloudData]
         | none => [])

/-- forcePull (src/unnamed/part_000 lines 362-369), given the fetch result:
nothing without a sync key; otherwise a fetch, and when it produced a
collection, the whole of updateApps on it (with the same key in scope);
when it produced null, nothing further. -/
def forcePullTrace (syncKey : Option String) (result : Option (List α)) : List (Event α) :=
  match syncKey with
  | none => []
  | some k =>
      .fetchRemote k ::
        (match result with
         | some data => updateAppsTrace (some k) data
         | none => [])

/-- The save effect of the src/unnamed/part_001 variant (lines 21-26): after
any change to apps, persist them - but only when the collection is
non-empty (the guard keeps the mount-time empty initial state from wiping
the record before the load effect resolves). -/
def saveEffectV1 (s : LocalState α) : LocalState α :=
  if s.apps.length > 0 then { s with stored := some s.apps } else s

/-- The payload a form submit hands to onSave when no entry is being edited:
the four form fields, without id and createdAt (the Omit type in
src/App.tsx line 87). -/
structure AppDraft where
  name : String
  url : String
  icon : String
  category : String
deriving Repr, DecidableEq

/-- The argument of handleSaveApp: either a draft (add) or a full AppLink
carrying an id (edit) - the code branches on whether an id field is
present. -/
inductive SaveInput where
  | draft (d : AppDraft)
  | full (a : AppLink)

/-- handleSaveApp (src/unnamed/part_000 lines 338-349 and src/App.tsx lines
244-253), its two nondeterministic inputs made explicit: freshId is the
crypto.randomUUID() value and now the Date.now() value read in the add
branch.  Edit maps over the collection replacing every id match; add
prepends the draft extended with the fresh id and timestamp. -/
def handleSaveApp (freshId : String) (now : Nat) (appData : SaveInput)
    (apps : List AppLink) : List AppLink :=
  match appData with
  | .full a => apps.map fun app => if app.id = a.id then a else app
  | .draft d =>
      { id := freshId, name := d.name, url := d.url, icon := d.icon,
        category := d.category, createdAt := now } :: apps

/-- handleDeleteApp (src/unnamed/part_000 lines 351-355, src/App.tsx lines
255-259, src/unnamed/part_001 lines 49-53): keep every entry whose id
differs. -/
def handleDeleteApp (id : String) (apps : List AppLink) : List AppLink :=
  apps.filter fun app => app.id != id

/-- Substring containment on character lists, the semantics of the
JavaScript String.prototype.includes: the needle is a prefix of some suffix
of the haystack (an empty needle is always contained). -/
def listContains (sub : List Char) : List Char → Bool
  | [] => sub.isEmpty
  | c :: cs => sub.isPrefixOf (c :: cs) || listContains sub cs

/-- haystack.includes(needle) on strings. -/
def includesStr (s sub : String) : Bool :=
  listContains sub.data s.data

/-- Per-character lowercasing, the semantics of toLowerCase. -/
def strToLower (s : String) : String :=
  ⟨s.data.map Char.toLower⟩

/-- The search predicate of filteredApps: name or url, lowercased, contains
the lowercased query. -/
def matchesSearch (searchQuery : String) (a : AppLink) : Bool :=
  includesStr (strToLower a.name) (strToLower searchQuery) ||
    includesStr (strToLower a.url) (strToLower searchQuery)

/-- The category predicate of filteredApps: the active category is the
literal All, or equals the entry category. -/
def matchesCategory (activeCategory : String) (a : AppLink) : Bool :=
  activeCategory = "All" || a.category = activeCategory

/-- filteredApps (src/unnamed/part_000 lines 330-336, src/App.tsx lines
236-242, src/unnamed/part_001 lines 28-38): the entries matching both the
search and the category predicate, in order. -/
def filteredApps (searchQuery activeCategory : String)
    (apps : List AppLink) : List AppLink :=
  apps.filter fun app =>
    matchesSearch searchQuery app && matchesCategory activeCategory app

/-- Case-insensitive character comparison, the effect of a regex i flag. -/
def charIEq (p c : Char) : Bool :=
  p.toLower = c.toLower

/-- Match a pattern character list case-insensitively against the start of
a character list. -/
def matchCI : List Char → List Char → Bool
  | [], _ => true
  | _ :: _, [] => false
  | p :: ps, c :: cs => charIEq p c && matchCI ps cs

/-- The test of the anchored regex for an http or https scheme with the i
flag, from src/App.tsx line 129: the string starts, case-insensitively,
with http:// or with https://. -/
def testHttpScheme (s : String) : Bool :=
  matchCI "http://".data s.data || matchCI "https://".data s.data

/-- The url normalization of AppFormModal.handleSubmit in src/App.tsx lines
128-131: prepend https:// unless the anchored case-insensitive regex finds
an http or https scheme. -/
def validatedUrlLocal (url : String) : String :=
  if testHttpScheme url then url else "https://" ++ url

/-- The url normalization of AppFormModal.handleSubmit in
src/unnamed/part_000 line 225: prepend https:// unless the string merely
starts with the four characters http (case-sensitively, no separator
required). -/
def validatedUrlSync (url : String) : String :=
  if "http".data.isPrefixOf url.data then url else "https://" ++ url

/-- A concrete entry, for the concrete instances below. -/
def sampleApp : AppLink :=
  { id := "a1", name := "Mail", url := "https://mail.example.com", icon := "",
    category := "Business", createdAt := 100 }

/-- String containment agrees with the mathematical infix relation on the
character lists. -/
theorem listContains_iff_infix (sub l : List Char) :
    listContains sub l = true ↔ sub <:+: l := by
  induction l with
  | nil => simp [listContains, List.isEmpty_iff, List.infix_nil]
  | cons ch cs ih =>
      simp only [listContains, Bool.or_eq_true, ih, List.isPrefixOf_iff_prefix]
      exact (List.infix_cons_iff).symm

/-- C2: a pull whose response has a success status and a JSON-array body
produces exactly that array, and the auto-pull effect run on it leaves both
the in-memory collection and the persisted record equal to it, whatever the
prior local state. -/
theorem pull_success_replaces_local (s : LocalState Json) (k : String) (d : List Json) :
    syncService.fetchCloudApps (.resp true (.arr d)) = some d ∧
    runEvents s (autoPullTrace (some k) (syncService.fetchCloudApps (.resp true (.arr d)))) =
      { apps := d, stored := some d } :=
  ⟨rfl, rfl⟩

/-- C3: every failing pull - rejected fetch, non-success status, or a body
that is not an array - yields null, and the auto-pull effect run on a null
result leaves the local state exactly as it was. -/
theorem pull_failure_leaves_local_unchanged (s : LocalState Json) (k : String)
    (resp : RemoteResponse) (h : syncService.fetchCloudApps resp = none) :
    runEvents s (autoPullTrace (some k) (syncService.fetchCloudApps resp)) = s ∧
    syncService.fetchCloudApps .netError = none ∧
    (∀ body, syncService.fetchCloudApps (.resp false body) = none) ∧
    (∀ body, (∀ elems, body ≠ .arr elems) →
        syncService.fetchCloudApps (.resp true body) = none) := by
  refine ⟨by rw [h]; rfl, rfl, fun _ => rfl, ?_⟩
  intro body hb
  cases body <;> first | rfl | exact absurd rfl (hb _)

/-- Concrete run of pull_failure_leaves_local_unchanged: a network error
during auto-pull leaves a nontrivial local state untouched. -/
theorem pull_failure_unchanged_witness :
    runEvents { apps := [Json.null], stored := none }
        (autoPullTrace (some "abc123") (syncService.fetchCloudApps .netError)) =
      { apps := [Json.null], stored := none } :=
  (pull_failure_leaves_local_unchanged { apps := [Json.null], stored := none }
    "abc123" .netError rfl).1

/-- C10: with a key configured, a successful force-pull routes the fetched
collection through updateApps, so its trace both replaces-and-persists the
local collection and pushes that same collection back to the remote at the
same key, whereas the startup auto-pull trace never contains a remote
push. -/
theorem force_pull_pushes_back (k : String) (d : List Json) (s : LocalState Json) :
    forcePullTrace (some k) (syncService.fetchCloudApps (.resp true (.arr d))) =
      [Event.fetchRemote k, .setApps d, .saveLocal d, .pushRemote k d] ∧
    runEvents s (forcePullTrace (some k) (some d)) = { apps := d, stored := some d } ∧
    Event.pushRemote k d ∈ forcePullTrace (some k) (some d) ∧
    (∀ (key : Option String) (res : Option (List Json)) (k2 : String) (c : List Json),
        Event.pushRemote k2 c ∉ autoPullTrace key res) := by
  refine ⟨rfl, rfl, by simp [forcePullTrace, updateAppsTrace], ?_⟩
  intro key res k2 c
  cases key with
  | none => simp [autoPullTrace]
  | some kk => cases res <;> simp [autoPullTrace]

/-- C1 (amended): in the sync variant every mutation goes through
updateApps, whose run always ends with the persisted record equal to the
new in-memory collection whether or not a push follows, and whose trace
performs the local save before any remote push; in the part_001 variant the
guarded save effect persists the in-memory collection only when it is
non-empty. -/
theorem update_persists_before_push (k : String) (newApps : List α) (s : LocalState α) :
    (∀ key, runEvents s (updateAppsTrace key newApps) =
        { apps := newApps, stored := some newApps }) ∧
    (∀ t₁ t₂ k2 c, updateAppsTrace (some k) newApps = t₁ ++ Event.pushRemote k2 c :: t₂ →
        Event.saveLocal newApps ∈ t₁) ∧
    (∀ s2 : LocalState α, s2.apps ≠ [] → (saveEffectV1 s2).stored = some s2.apps) := by
  refine ⟨fun key => by cases key <;> rfl, ?_, ?_⟩
  · intro t₁ t₂ k2 c h
    rcases t₁ with _ | ⟨a, _ | ⟨b, _ | ⟨e, rest⟩⟩⟩ <;> simp_all [updateAppsTrace]
    obtain ⟨h1, h2, ⟨hk, hc⟩, ht⟩ := h
    exact Or.inr (hc ▸ h2)
  · intro s2 h2
    simp [saveEffectV1, List.length_pos.mpr h2]

/-- Concrete run of update_persists_before_push: an updateApps with a key
configured persists the one-entry collection, and the part_001 save effect
persists a non-empty collection. -/
theorem update_persists_witness :
    runEvents { apps := [], stored := none } (updateAppsTrace (some "abc123") [sampleApp]) =
      { apps := [sampleApp], stored := some [sampleApp] } ∧
    (saveEffectV1 { apps := [sampleApp], stored := none }).stored = some [sampleApp] := by
  have h := update_persists_before_push "abc123" [sampleApp] { apps := [], stored := none }
  exact ⟨h.1 (some "abc123"), h.2.2 { apps := [sampleApp], stored := none } (by simp)⟩

/-- C1 counterexample: in the part_001 variant, deleting the only entry
leaves the in-memory collection empty while the persisted record still
holds the deleted entry - after this mutation the persisted record does not
equal the in-memory collection. -/
theorem delete_to_empty_not_persisted :
    (saveEffectV1 { apps := handleDeleteApp "a1" [sampleApp],
                    stored := some [sampleApp] }).apps = [] ∧
    (saveEffectV1 { apps := handleDeleteApp "a1" [sampleApp],
                    stored := some [sampleApp] }).stored = some [sampleApp] ∧
    some [sampleApp] ≠
      some (saveEffectV1 { apps := handleDeleteApp "a1" [sampleApp],
                           stored := some [sampleApp] }).apps := by
  refine ⟨rfl, rfl, by decide⟩

/-- C4 counterexample: a persisted record whose text parses as JSON but is
not a valid Collection (the text of an empty object) is returned by load as
it is, not replaced by the seed collection. -/
theorem load_keeps_unparseable_collection :
    storageService.getApps (.json (Json.obj [])) = Json.obj [] ∧
    decodeApps (Json.obj []) = none ∧
    Json.obj [] ≠ encodeApps INITIAL_APPS :=
  ⟨rfl, rfl, fun h => Json.noConfusion h⟩

/-- C4 (amended): load never fails; when the record is absent or its text
makes JSON.parse throw it returns the fixed seed collection, but a record
that parses as JSON is returned as is, with no validation of its shape. -/
theorem load_defaults_on_absent_or_malformed :
    decodeApps (storageService.getApps .absent) = some INITIAL_APPS ∧
    decodeApps (storageService.getApps .malformed) = some INITIAL_APPS ∧
    storageService.getApps .absent = encodeApps INITIAL_APPS ∧
    storageService.getApps .malformed = encodeApps INITIAL_APPS ∧
    (∀ j, storageService.getApps (.json j) = j) :=
  ⟨decodeApps_encodeApps _, decodeApps_encodeApps _, rfl, rfl, fun _ => rfl⟩

/-- C6: for every collection C, loading immediately after saving C yields
the stored JSON image of C, and reading it as a Collection gives back
exactly C (round-trip through the persisted JSON record). -/
theorem save_load_roundtrip (C : List AppLink) :
    storageService.getApps (storageService.saveApps C) = encodeApps C ∧
    decodeApps (storageService.getApps (storageService.saveApps C)) = some C :=
  ⟨rfl, decodeApps_encodeApps C⟩

/-- C7: adding a draft prepends one new entry: the result is the old
collection with, at position 0, the draft extended with the fresh
identifier (absent from the prior collection) and a creation timestamp at
least the time of the call; every prior entry follows unchanged. -/
theorem addEntry_prepends (d : AppDraft) (freshId : String) (now : Nat)
    (apps : List AppLink) (h : freshId ∉ apps.map AppLink.id) :
    handleSaveApp freshId now (.draft d) apps =
      { id := freshId, name := d.name, url := d.url, icon := d.icon,
        category := d.category, createdAt := now } :: apps ∧
    (handleSaveApp freshId now (.draft d) apps).head? =
      some { id := freshId, name := d.name, url := d.url, icon := d.icon,
             category := d.category, createdAt := now } ∧
    (∀ a, (handleSaveApp freshId now (.draft d) apps).head? = some a →
        a.id ∉ apps.map AppLink.id ∧ now ≤ a.createdAt) ∧
    (handleSaveApp freshId now (.draft d) apps).tail = apps ∧
    (handleSaveApp freshId now (.draft d) apps).length = apps.length + 1 := by
  refine ⟨rfl, rfl, ?_, rfl, rfl⟩
  intro a ha
  simp only [handleSaveApp, List.head?_cons, Option.some.injEq] at ha
  subst ha
  exact ⟨h, Nat.le_refl _⟩

/-- Concrete run of addEntry_prepends: the spec scenario entry, added over a
one-entry collection with a different identifier. -/
theorem addEntry_prepends_witness :
    handleSaveApp "u1" 5
        (.draft { name := "Mail", url := "https://mail.example.com",
                  icon := "", category := "Business" }) [sampleApp] =
      { id := "u1", name := "Mail", url := "https://mail.example.com",
        icon := "", category := "Business", createdAt := 5 } :: [sampleApp] :=
  (addEntry_prepends
    { name := "Mail", url := "https://mail.example.com",
      icon := "", category := "Business" }
    "u1" 5 [sampleApp] (by decide)).1

/-- In a collection whose identifiers are pairwise distinct, at most one
entry carries a given identifier. -/
theorem length_filter_id_le_one (key : String) (apps : List AppLink)
    (h : (apps.map AppLink.id).Nodup) :
    (apps.filter fun a => a.id == key).length ≤ 1 := by
  induction apps with
  | nil => simp
  | cons a rest ih =>
      rw [List.map_cons, List.nodup_cons] at h
      by_cases hc : a.id = key
      · have hrest : rest.filter (fun x => x.id == key) = [] := by
          rw [List.filter_eq_nil_iff]
          intro x hx hxk
          exact h.1 (hc ▸ (beq_iff_eq.mp hxk) ▸ List.mem_map_of_mem AppLink.id hx)
        simp [List.filter_cons, hc, hrest]
      · simpa [List.filter_cons, hc] using ih h.2

/-- C8: editing by identifier keeps the length and the order, replaces by
the edited entry exactly the positions whose identifier matches, leaves
every other position identical, and under the identifier-uniqueness
hypothesis at most one position matches. -/
theorem editEntry_frame (freshId : String) (now : Nat) (apps : List AppLink)
    (edited : AppLink) (h : (apps.map AppLink.id).Nodup) :
    (handleSaveApp freshId now (.full edited) apps).length = apps.length ∧
    (∀ i : Nat, (handleSaveApp freshId now (.full edited) apps)[i]? =
        (apps[i]?).map fun app => if app.id = edited.id then edited else app) ∧
    (∀ i : Nat, ∀ a, apps[i]? = some a → a.id ≠ edited.id →
        (handleSaveApp freshId now (.full edited) apps)[i]? = some a) ∧
    (∀ i : Nat, ∀ a, apps[i]? = some a → a.id = edited.id →
        (handleSaveApp freshId now (.full edited) apps)[i]? = some edited) ∧
    (apps.countP fun app => app.id == edited.id) ≤ 1 := by
  refine ⟨List.length_map _ _, fun i => List.getElem?_map _ apps i, ?_, ?_, ?_⟩
  · intro i a ha hne
    simp [handleSaveApp, List.getElem?_map, ha, hne]
  · intro i a ha heq
    simp [handleSaveApp, List.getElem?_map, ha, heq]
  · rw [List.countP_eq_length_filter]
    exact length_filter_id_le_one edited.id apps h

/-- Concrete run of editEntry_frame: renaming the only entry of a one-entry
collection keeps the length at one. -/
theorem editEntry_frame_witness :
    (handleSaveApp "u" 0 (.full { sampleApp with name := "Mail2" }) [sampleApp]).length = 1 :=
  (editEntry_frame "u" 0 [sampleApp] { sampleApp with name := "Mail2" } (by decide)).1

/-- C9: filtering returns exactly the subsequence of the collection whose
entries have the lowercased search string as a substring of the lowercased
name or url and whose category matches the active one (everything matches
the category All): it is a sublist (order preserved), membership is exactly
the stated predicate, and its length counts exactly the matching entries. -/
theorem listEntries_filters_exactly (s c : String) (apps : List AppLink) :
    List.Sublist (filteredApps s c apps) apps ∧
    (∀ a, a ∈ filteredApps s c apps ↔
        a ∈ apps ∧
          ((strToLower s).data <:+: (strToLower a.name).data ∨
            (strToLower s).data <:+: (strToLower a.url).data) ∧
          (c = "All" ∨ a.category = c)) ∧
    (filteredApps s c apps).length =
      apps.countP fun a => matchesSearch s a && matchesCategory c a := by
  refine ⟨List.filter_sublist apps, ?_, (List.countP_eq_length_filter _ _).symm⟩
  intro a
  simp [filteredApps, List.mem_filter, Bool.and_eq_true, Bool.or_eq_true,
    matchesSearch, matchesCategory, includesStr, listContains_iff_infix,
    decide_eq_true_iff]

/-- Case-insensitive matching of a pattern against itself followed by
anything succeeds. -/
theorem matchCI_append_self : ∀ (ps cs : List Char), matchCI ps (ps ++ cs) = true
  | [], _ => rfl
  | p :: ps, cs => by simp [matchCI, charIEq, matchCI_append_self ps cs]

/-- Prepending https:// always produces a url that passes the scheme
test. -/
theorem testHttpScheme_prepend (url : String) :
    testHttpScheme ("https://" ++ url) = true := by
  rw [testHttpScheme, String.data_append _ _, Bool.or_eq_true]
  exact Or.inr (matchCI_append_self _ _)

/-- C5 counterexample: in the sync variant the draft url httpx.com carries
no http or https scheme, yet handleSubmit stores it unchanged instead of
prepending https://. -/
theorem url_with_bare_http_prefix_kept :
    testHttpScheme "httpx.com" = false ∧
    validatedUrlSync "httpx.com" = "httpx.com" ∧
    validatedUrlSync "httpx.com" ≠ "https://" ++ "httpx.com" :=
  ⟨rfl, rfl, by decide⟩

/-- C5 (amended): in the local variant the claim holds - a url already
carrying a case-insensitive http or https scheme is stored unchanged, any
other gets https:// prepended, and the stored url always carries a scheme;
in the sync variant the guard tests only the four leading characters http
(case-sensitively), so a url beginning with them is stored unchanged even
when it carries no scheme, and every other url gets https:// prepended. -/
theorem validated_url_normalization (url : String) :
    (testHttpScheme url = false → validatedUrlLocal url = "https://" ++ url) ∧
    (testHttpScheme url = true → validatedUrlLocal url = url) ∧
    testHttpScheme (validatedUrlLocal url) = true ∧
    ("http".data.isPrefixOf url.data = false → validatedUrlSync url = "https://" ++ url) ∧
    ("http".data.isPrefixOf url.data = true → validatedUrlSync url = url) := by
  refine ⟨fun h => by simp [validatedUrlLocal, h], fun h => by simp [validatedUrlLocal, h],
    ?_, fun h => by simp [validatedUrlSync, h], fun h => by simp [validatedUrlSync, h]⟩
  by_cases h : testHttpScheme url
  · simp [validatedUrlLocal, h]
  · simp only [validatedUrlLocal, h, Bool.false_eq_true, if_false]
    exact testHttpScheme_prepend url

/-- Concrete run of validated_url_normalization: the spec scenario url
mail.example.com gets https:// prepended in both variants. -/
theorem validated_url_normalization_witness :
    validatedUrlLocal "mail.example.com" = "https://" ++ "mail.example.com" ∧
    validatedUrlSync "mail.example.com" = "https://" ++ "mail.example.com" := by
  have h := validated_url_normalization "mail.example.com"
  exact ⟨h.1 rfl, h.2.2.2.1 rfl⟩

end AppHub
